import Mathlib

/- Verification of the Accessors source-to-source transform
   (src/Transforms/AccessorsTransform.cpp, entry point src/main.cpp)
   against its design specification.

   Shallow-embedding conventions:
   * A clang SourceLocation is a Nat offset into the source buffer; a
     SourceRange is the pair (start, stop), with stop modelling the
     location returned by getLocEnd.
   * The output of Expr::printPretty is modelled as a stored rendering
     attribute (txt) on each expression node, since the pretty printer
     is an external clang service; the base sub-expression of a member
     access is used by the transform only through printPretty, so a
     member node stores only the rendered base text.
   * clang::Rewriter is modelled by the queue of emitted edits, in the
     order the transform emits them (the Text Splicer that later applies
     them to the buffer is an external collaborator, spec section 6).
   * The ParentMap walk that computes the top-level statement boundary
     (the while loops at lines 84-86, 156-158, 207-209 of
     AccessorsTransform.cpp) is modelled by an equivalent downward
     context: while descending, a child of a node that is neither an
     expression nor a DeclStmt becomes its own boundary; a child of an
     expression or DeclStmt inherits the boundary of its parent.  -/

/-- A clang SourceRange: start offset and end offset (getLocEnd). -/
structure Range where
  start : Nat
  stop : Nat
  deriving DecidableEq, Repr

/-- One queued edit of the clang Rewriter, as emitted by the transform:
InsertTextBefore, InsertTextAfter, InsertTextAfterToken, ReplaceText. -/
inductive Edit where
  | insertBefore (pos : Nat) (text : String)
  | insertAfter (pos : Nat) (text : String)
  | insertAfterToken (pos : Nat) (text : String)
  | replaceRange (r : Range) (text : String)
  deriving DecidableEq, Repr

/-- A CXXMethodDecl of the owning type, as used by
AccessorsTransform::replace (lines 265-299): only isUserProvided() and
getSourceRange().getEnd() are consulted. -/
structure MethodDecl where
  userProvided : Bool
  endLoc : Nat
  deriving DecidableEq, Repr

/-- A clang FieldDecl as used by the transform: its identity (pointer
equality at line 81/153/204 is modelled by the id), getNameAsString,
getQualifiedNameAsString, the rendering of its non-reference type, and
the data of its parent CXXRecordDecl needed by replace():
the method list and getRBraceLoc(). -/
structure FieldDecl where
  id : Nat
  name : String
  qname : String
  typeStr : String
  parentMethods : List MethodDecl
  parentRBrace : Nat
  deriving DecidableEq, Repr

/-- The member fieldRanges : map of qualified name to FieldDecl
(line 13).  Modelled as an association list kept sorted by key, the
iteration order of std::map. -/
abbrev FieldMap := List (String × FieldDecl)

/-- Lexicographic comparison of char lists, the std::string key order
of the std::map. -/
def charListLt : List Char → List Char → Bool
  | _, [] => false
  | [], _ :: _ => true
  | a :: as, b :: bs => decide (a < b) || (a == b && charListLt as bs)

/-- std::string operator less-than on the underlying characters. -/
def strLt (a b : String) : Bool := charListLt a.data b.data

/-- Ordered insert modelling fieldRanges[qname] = decl (line 55). -/
def mapInsert (k : String) (v : FieldDecl) : FieldMap → FieldMap
  | [] => [(k, v)]
  | (k2, v2) :: rest =>
    if strLt k k2 then (k, v) :: (k2, v2) :: rest
    else if k = k2 then (k, v) :: rest
    else (k2, v2) :: mapInsert k v rest

/-- Number of entries of the map whose FieldDecl is the one referenced
by a member expression; the loops at lines 79, 151, 202 run their match
body once per such entry (the loop body itself only reads the member
expression, so all copies are identical). -/
def nMatch (fm : FieldMap) (fid : Nat) : Nat :=
  (fm.filter (fun e => e.2.id == fid)).length

/-- n concatenated copies of an edit block, one per matching map entry. -/
def joinN (n : Nat) (block : List Edit) : List Edit :=
  (List.replicate n block).flatten

/-- getterName / setterName derivation (lines 93-96): prepend get/set
and upper-case the first character of the field name (index 3 of the
concatenation). -/
def cap1 (s : String) : String :=
  match s.data with
  | [] => s
  | c :: cs => String.mk (Char.toUpper c :: cs)

def getterName (n : String) : String := "get" ++ cap1 n

def setterName (n : String) : String := "set" ++ cap1 n

/-- Downward model of the ParentMap walk: the source range of the
computed top-level statement boundary, whether the current node is
itself that boundary (un_op == top_stmt_within_compound), and whether
the parent of the boundary is a CompoundStmt (line 175). -/
structure Ctx where
  topStart : Nat
  topEnd : Nat
  isTop : Bool
  parentOfTopIsCompound : Bool
  deriving DecidableEq, Repr

/-- Context for a child of an expression or DeclStmt: same boundary,
but the child is no longer the boundary node itself. -/
def subCtx (ctx : Ctx) : Ctx := { ctx with isTop := false }

mutual
/-- A clang Stmt, restricted to the shapes the transform distinguishes
in collect(const Stmt*) (lines 225-246) and the rewrite overloads:
a MemberExpr (base rendering, member name, member decl identity),
BinaryOperator split by opcode class (BO_Assign / compound assignment
with the opcode string of getOpForCompoundAssignment / anything else),
UnaryOperator split by isIncrementDecrementOp and isPrefix, any other
expression, DeclStmt, CompoundStmt, and any other statement.  Children
are Option-valued because clang child lists may contain null (checked
at line 242). -/
inductive Stm where
  | member (baseTxt fname : String) (fid : Nat) (txt : String) (r : Range)
  | binAssign (lhs rhs : Stm) (txt : String) (r : Range)
  | binCompound (opStr : String) (lhs rhs : Stm) (txt : String) (r : Range)
  | binOther (lhs rhs : Stm) (txt : String) (r : Range)
  | unIncDec (isInc isPre : Bool) (sub : Stm) (txt : String) (r : Range)
  | unOther (sub : Stm) (txt : String) (r : Range)
  | exprOther (children : StmList) (txt : String) (r : Range)
  | declStmt (children : StmList) (r : Range)
  | compound (children : StmList) (r : Range)
  | otherStmt (children : StmList) (r : Range)

inductive StmList where
  | nil
  | cons (hd : Option Stm) (tl : StmList)
end

/-- getSourceRange of a statement. -/
def rangeOf : Stm → Range
  | .member _ _ _ _ r => r
  | .binAssign _ _ _ r => r
  | .binCompound _ _ _ _ r => r
  | .binOther _ _ _ r => r
  | .unIncDec _ _ _ _ r => r
  | .unOther _ _ r => r
  | .exprOther _ _ r => r
  | .declStmt _ r => r
  | .compound _ r => r
  | .otherStmt _ r => r

/-- printPretty rendering of an expression (stored attribute; empty for
non-expression statements, on which the transform never calls it). -/
def ptxt : Stm → String
  | .member _ _ _ t _ => t
  | .binAssign _ _ t _ => t
  | .binCompound _ _ _ t _ => t
  | .binOther _ _ t _ => t
  | .unIncDec _ _ _ t _ => t
  | .unOther _ t _ => t
  | .exprOther _ t _ => t
  | .declStmt _ _ => ""
  | .compound _ _ => ""
  | .otherStmt _ _ => ""

mutual
/-- AccessorsTransform::collect(const Stmt*, const ParentMap&)
(lines 225-246), with the three rewrite overloads inlined at their
dispatch sites:

* rewrite(const BinaryOperator*, ...) (lines 71-143): if the LHS is not
  a MemberExpr, collect both operands (lines 73-78).  Otherwise, for
  each map entry whose decl is the decl of the member: for a compound
  assignment used as a sub-expression (lines 101-117) collect the RHS,
  insert base.setter( base.getter() OP rhs );\n before the boundary
  statement and replace the range of the operator by base.getter(); for a
  statement-level compound assignment (lines 118-131) collect the RHS
  and replace the range by base.setter( base.getter() OP rhs ); for
  BO_Assign (lines 133-140) collect the RHS and replace the range by
  base.setter( rhs ); any other opcode emits nothing.
* rewrite(const UnaryOperator*, ...) (lines 144-199): if the operand is
  not a MemberExpr, collect it (lines 146-150).  Otherwise, for each
  matching entry: a non-increment/decrement operator only re-collects
  its operand (lines 169-172); an increment/decrement computes
  needToInsertBraces (line 175), emits InsertTextBefore(top start,
  opening brace) when needed (line 177), then either replaces its own
  range (statement level, line 184), inserts the setter statement
  before the boundary start (prefix, line 188) or inserts it after the
  boundary end location (postfix, line 193), and when braces are
  needed emits InsertTextAfter(top START, closing brace) (line 196).
* rewrite(const MemberExpr*, ...) (lines 201-224): for each matching
  entry, replace the member range by base.getter(). -/
def scanS (fm : FieldMap) : Stm → Ctx → List Edit
  | .binAssign (.member bT fn fid _ _) rhs _ r, ctx =>
    joinN (nMatch fm fid)
      (scanS fm rhs (subCtx ctx) ++
        [Edit.replaceRange r (bT ++ "." ++ setterName fn ++ "( " ++ ptxt rhs ++ " )")])
  | .binAssign lhs rhs _ _, ctx => scanS fm lhs (subCtx ctx) ++ scanS fm rhs (subCtx ctx)
  | .binCompound op (.member bT fn fid _ _) rhs _ r, ctx =>
    joinN (nMatch fm fid)
      (if ctx.isTop then
        scanS fm rhs (subCtx ctx) ++
          [Edit.replaceRange r
            (bT ++ "." ++ setterName fn ++ "( " ++ bT ++ "." ++ getterName fn ++ "() "
              ++ op ++ " " ++ ptxt rhs ++ " )")]
      else
        scanS fm rhs (subCtx ctx) ++
          [Edit.insertBefore ctx.topStart
            (bT ++ "." ++ setterName fn ++ "( " ++ bT ++ "." ++ getterName fn ++ "() "
              ++ op ++ " " ++ ptxt rhs ++ " );\n"),
           Edit.replaceRange r (bT ++ "." ++ getterName fn ++ "()")])
  | .binCompound _ lhs rhs _ _, ctx => scanS fm lhs (subCtx ctx) ++ scanS fm rhs (subCtx ctx)
  | .binOther (.member _ _ _ _ _) _ _ _, _ => []
  | .binOther lhs rhs _ _, ctx => scanS fm lhs (subCtx ctx) ++ scanS fm rhs (subCtx ctx)
  | .unIncDec isInc isPre (.member bT fn fid _ _) _ r, ctx =>
    joinN (nMatch fm fid)
      ((if (!ctx.parentOfTopIsCompound) && (!ctx.isTop) then
          [Edit.insertBefore ctx.topStart "\x7b\n"] else []) ++
       (if ctx.isTop then
          [Edit.replaceRange r
            (bT ++ "." ++ setterName fn ++ "( " ++ bT ++ "." ++ getterName fn ++ "() "
              ++ (if isInc then "+" else "-") ++ " 1)")]
        else if isPre then
          [Edit.insertBefore ctx.topStart
            (bT ++ "." ++ setterName fn ++ "( " ++ bT ++ "." ++ getterName fn ++ "() "
              ++ (if isInc then "+" else "-") ++ " 1)" ++ ";\n")]
        else
          [Edit.insertAfter ctx.topEnd
            (";\n" ++ bT ++ "." ++ setterName fn ++ "( " ++ bT ++ "." ++ getterName fn ++ "() "
              ++ (if isInc then "+" else "-") ++ " 1)")]) ++
       (if (!ctx.parentOfTopIsCompound) && (!ctx.isTop) then
          [Edit.insertAfter ctx.topStart "\x7d\n"] else []))
  | .unIncDec _ _ sub _ _, ctx => scanS fm sub (subCtx ctx)
  | .unOther (.member bT fn fid _ mr) _ _, _ =>
    joinN (nMatch fm fid)
      (joinN (nMatch fm fid)
        [Edit.replaceRange mr (bT ++ "." ++ getterName fn ++ "()")])
  | .unOther sub _ _, ctx => scanS fm sub (subCtx ctx)
  | .member bT fn fid _ r, _ =>
    joinN (nMatch fm fid) [Edit.replaceRange r (bT ++ "." ++ getterName fn ++ "()")]
  | .exprOther ch _ _, ctx => scanL fm ch (subCtx ctx) none
  | .declStmt ch _, ctx => scanL fm ch (subCtx ctx) none
  | .compound ch _, ctx => scanL fm ch ctx (some true)
  | .otherStmt ch _, ctx => scanL fm ch ctx (some false)

/-- Child traversal (lines 236-244).  mode = none: the parent is an
expression or DeclStmt, so children keep the inherited boundary;
mode = some pc: the parent is a true statement, so each child is its
own boundary and pc records whether the parent is a CompoundStmt. -/
def scanL (fm : FieldMap) : StmList → Ctx → Option Bool → List Edit
  | .nil, _, _ => []
  | .cons none tl, ctx, mode => scanL fm tl ctx mode
  | .cons (some c) tl, ctx, mode =>
    (match mode with
     | none => scanS fm c ctx
     | some pc => scanS fm c ⟨(rangeOf c).start, (rangeOf c).stop, true, pc⟩) ++
    scanL fm tl ctx mode
end

/-- Context for the root call collect(body, ParentMap(body)) at
line 63: the body is its own boundary. -/
def initCtx (b : Stm) : Ctx :=
  ⟨(rangeOf b).start, (rangeOf b).stop, true, false⟩

mutual
/-- A clang Decl as distinguished by collect(const DeclContext*)
(lines 23-69): a CXXRecordDecl (its FieldDecls, then its nested decls,
e.g. methods), a FunctionDecl (name, optional body, nested decls), or
any other declaration with its nested declaration context (empty for
declarations that are not contexts). -/
inductive Decl where
  | record (fields : List FieldDecl) (inner : DeclList)
  | func (name : String) (body : Option Stm) (inner : DeclList)
  | dother (inner : DeclList)

inductive DeclList where
  | nil
  | cons (d : Decl) (tl : DeclList)
end

/-- Field Selector step (lines 52-56): record every direct field member
whose qualified name occurs in the configured list. -/
def addFields (cfg : List String) (fs : List FieldDecl) (fm : FieldMap) : FieldMap :=
  match fs with
  | [] => fm
  | fd :: rest =>
    addFields cfg rest (if cfg.contains fd.qname then mapInsert fd.qname fd fm else fm)

mutual
/-- AccessorsTransform::collect(const DeclContext*) (lines 23-69),
threading the (fieldRanges, emitted edits) state through the single
interleaved pass: a CXXRecordDecl contributes its matching fields and
is then recursed into (line 67); a FunctionDecl not named main is
skipped entirely (the continue at line 60 also skips the context
recursion); a FunctionDecl named main has its body scanned (line 63)
with the fieldRanges accumulated SO FAR, and is then recursed into;
any other context is recursed into. -/
def collectD (cfg : List String) (d : Decl) (st : FieldMap × List Edit) :
    FieldMap × List Edit :=
  match d with
  | .record fs inner => collectDL cfg inner (addFields cfg fs st.1, st.2)
  | .func name body inner =>
    if name = "main" then
      collectDL cfg inner
        (match body with
         | some b => (st.1, st.2 ++ scanS st.1 b (initCtx b))
         | none => st)
    else st
  | .dother inner => collectDL cfg inner st

def collectDL (cfg : List String) (l : DeclList) (st : FieldMap × List Edit) :
    FieldMap × List Edit :=
  match l with
  | .nil => st
  | .cons d tl => collectDL cfg tl (collectD cfg d st)
end

/-- The accessor block emitted for one field by
AccessorsTransform::replace (lines 252-263): const getter, non-const
getter, setter.  ctype models getType().getNonReferenceType()
.withConst().getAsString(). -/
def accText (fd : FieldDecl) : String :=
  ("const " ++ fd.typeStr) ++ " &get" ++ cap1 fd.name ++ "() const \x7b return "
    ++ fd.name ++ "; \x7d;\n"
  ++ fd.typeStr ++ " &get" ++ cap1 fd.name ++ "()  \x7b return " ++ fd.name ++ "; \x7d;\n"
  ++ "void set" ++ cap1 fd.name ++ "(" ++ ("const " ++ fd.typeStr) ++ "& _" ++ fd.name
    ++ ") \x7b " ++ fd.name ++ " = _" ++ fd.name ++ "; \x7d;\n"

/-- The do-loop of lines 278-297, which walks lastMethod/check over the
method list to find the insertion location.  The two iterators advance
in lockstep, so the loop breaks (with loc = the source end of that method)
exactly when it reaches the final list element and that element is
user-provided; if the final element is NOT user-provided the loop
dereferences the end iterator (undefined behaviour in the source) -
modelled as none, i.e. no well-defined insertion. -/
def lastUserLoc : List MethodDecl → Option Nat
  | [] => none
  | m :: ms =>
    match ms with
    | [] => if m.userProvided then some m.endLoc else none
    | _ :: _ => lastUserLoc ms

/-- The per-field body of AccessorsTransform::replace (lines 248-300):
if the owning type has no user-provided method, InsertTextBefore the
closing brace (line 274); otherwise run the lastMethod loop and
InsertTextAfterToken at the found location (line 298). -/
def replaceOne (fd : FieldDecl) : List Edit :=
  if fd.parentMethods.any (fun m => m.userProvided) then
    match lastUserLoc fd.parentMethods with
    | some l => [Edit.insertAfterToken l (accText fd)]
    | none => []
  else
    [Edit.insertBefore fd.parentRBrace (accText fd)]

/-- AccessorsTransform::replace (lines 247-301): one accessor block per
fieldRanges entry, in map iteration order. -/
def replacePhase (fm : FieldMap) : List Edit :=
  (fm.map (fun e => replaceOne e.2)).flatten

/-- AccessorsTransform::HandleTranslationUnit (lines 17-22): the single
collect pass over the translation unit followed by replace(); the edit
queue holds the collect-phase edits followed by the replace-phase
edits. -/
def runTransform (cfg : List String) (tu : DeclList) : List Edit :=
  (collectDL cfg tu ([], [])).2 ++ replacePhase (collectDL cfg tu ([], [])).1

/- ------------------------------------------------------------------
   Specification-side definitions, used to compare the implemented
   behaviour with what the spec text prescribes.
   ------------------------------------------------------------------ -/

mutual
/-- Refinement twin, following the spec text of section 2 / section 5:
the Field Selector "runs once per compilation unit, producing the
target-field set" before any match decision; its traversal "recurses
into every declaration context" (section 4.1). -/
def specFieldPassD (cfg : List String) (d : Decl) (fm : FieldMap) : FieldMap :=
  match d with
  | .record fs inner => specFieldPassDL cfg inner (addFields cfg fs fm)
  | .func _ _ inner => specFieldPassDL cfg inner fm
  | .dother inner => specFieldPassDL cfg inner fm

def specFieldPassDL (cfg : List String) (l : DeclList) (fm : FieldMap) : FieldMap :=
  match l with
  | .nil => fm
  | .cons d tl => specFieldPassDL cfg tl (specFieldPassD cfg d fm)
end

mutual
/-- Refinement twin, following the spec text of section 2 / section 4.2:
after the Field Selector completes, the Usage Matcher "performs one
full traversal" with the final target-field set, recursing only into
bodies of functions named main. -/
def specUsagePassD (fm : FieldMap) (d : Decl) : List Edit :=
  match d with
  | .record _ inner => specUsagePassDL fm inner
  | .func name body inner =>
    (if name = "main" then
      match body with
      | some b => scanS fm b (initCtx b)
      | none => []
     else []) ++ specUsagePassDL fm inner
  | .dother inner => specUsagePassDL fm inner

def specUsagePassDL (fm : FieldMap) (l : DeclList) : List Edit :=
  match l with
  | .nil => []
  | .cons d tl => specUsagePassD fm d ++ specUsagePassDL fm tl
end

/-- Refinement twin of the whole unit, per the control flow of the spec
(section 2): complete field pass, then one usage traversal against the
final target-field set, then accessor synthesis. -/
def runTwoPhase (cfg : List String) (tu : DeclList) : List Edit :=
  specUsagePassDL (specFieldPassDL cfg tu []) tu ++
    replacePhase (specFieldPassDL cfg tu [])

/-- Refinement twin following the spec text of section 4.3 and the
AccessorSpec of section 3: a const getter returning a const reference,
a non-const getter returning a mutable reference, and a setter taking a
const reference parameter and assigning it to the field, with names
derived as get/get/set plus the capitalized field name (the concrete
C++ spelling - spacing, braces, trailing semicolons - is fixed by the
implementation, not by the spec). -/
def specAccessorBlock (fieldName typeName : String) : String :=
  let getterN := "get" ++ cap1 fieldName
  let setterN := "set" ++ cap1 fieldName
  "const " ++ typeName ++ " &" ++ getterN ++ "() const \x7b return " ++ fieldName
    ++ "; \x7d;\n" ++
  typeName ++ " &" ++ getterN ++ "()  \x7b return " ++ fieldName ++ "; \x7d;\n" ++
  "void " ++ setterN ++ "(" ++ "const " ++ typeName ++ "& _" ++ fieldName ++ ") \x7b "
    ++ fieldName ++ " = _" ++ fieldName ++ "; \x7d;\n"

/-- The text component of an edit. -/
def editText : Edit → String
  | .insertBefore _ t => t
  | .insertAfter _ t => t
  | .insertAfterToken _ t => t
  | .replaceRange _ t => t

mutual
/-- Erase the bodies of all functions not named main, leaving
everything else (fields, nested contexts, main bodies) in place. -/
def eraseD : Decl → Decl
  | .record fs inner => .record fs (eraseL inner)
  | .func name body inner =>
    .func name (if name = "main" then body else none) (eraseL inner)
  | .dother inner => .dother (eraseL inner)

def eraseL : DeclList → DeclList
  | .nil => .nil
  | .cons d tl => .cons (eraseD d) (eraseL tl)
end

/- ------------------------------------------------------------------
   Concrete translation units used as counterexamples, failing inputs
   and witnesses.
   ------------------------------------------------------------------ -/

/-- Target field Foo::f of a record with no methods; closing brace at
offset 100. -/
def fdF : FieldDecl := ⟨0, "f", "Foo::f", "int", [], 100⟩

/-- Second target field Foo::g of the same record. -/
def fdG : FieldDecl := ⟨1, "g", "Foo::g", "int", [], 100⟩

/-- The member access obj.f at offsets 41-45, inside the address-of
expression of exC1. -/
def memC1 : Stm := .member "obj" "f" 0 "obj.f" ⟨41, 45⟩

/-- The expression statement (and of itself a full statement) of the
source line containing the address-of usage of target field f:
the ampersand at offset 40 and the member access at 41-45. -/
def exC1 : Stm := .unOther memC1 "&obj.f" ⟨40, 46⟩

/-- main body containing only the address-of statement. -/
def bodyC1 : Stm := .compound (.cons (some exC1) .nil) ⟨25, 50⟩

/-- Unit: the record declaring Foo::f, then main containing the
address-of usage. -/
def tuC1 : DeclList :=
  .cons (.record [fdF] .nil) (.cons (.func "main" (some bodyC1) .nil) .nil)

/-- A main body holding one plain read of target field f, at 10-14. -/
def bodyC2 : Stm :=
  .compound (.cons (some (.member "obj" "f" 0 "obj.f" ⟨10, 14⟩)) .nil) ⟨5, 20⟩

/-- Unit in which main PRECEDES the record declaring the target field
(an ordering the claim explicitly quantifies over). -/
def tuC2 : DeclList :=
  .cons (.func "main" (some bodyC2) .nil) (.cons (.record [fdF] .nil) .nil)

/-- Concatenation of declaration sequences, used to state the order
condition of the amended C2: a unit that splits into a prefix and a
suffix. -/
def appendDL : DeclList → DeclList → DeclList
  | .nil, l2 => l2
  | .cons d tl, l2 => .cons d (appendDL tl l2)

mutual
/-- No function named main occurs anywhere in the declaration (at any
nesting depth the spec traversals reach), so neither pass scans any
body inside it. -/
def noMainD : Decl → Bool
  | .record _ inner => noMainL inner
  | .func name _ inner => if name = "main" then false else noMainL inner
  | .dother inner => noMainL inner

def noMainL : DeclList → Bool
  | .nil => true
  | .cons d tl => noMainD d && noMainL tl

end

mutual
/-- No record anywhere in the declaration (at any nesting depth the
Field Selector of the spec reaches, including inside function
contexts) declares a field whose qualified name is configured: the
declaration contributes nothing to the target-field set. -/
def noFieldsD (cfg : List String) : Decl → Bool
  | .record fs inner =>
    fs.all (fun fd => !(cfg.contains fd.qname)) && noFieldsL cfg inner
  | .func _ _ inner => noFieldsL cfg inner
  | .dother inner => noFieldsL cfg inner

def noFieldsL (cfg : List String) : DeclList → Bool
  | .nil => true
  | .cons d tl => noFieldsD cfg d && noFieldsL cfg tl

end

mutual
/-- Nothing relevant is hidden inside a non-main function: the single
interleaved pass never enters the context of a function not named main
(the continue at line 60), while the two-phase control flow of the
spec recurses into every declaration context; the two agree only when
those skipped contexts hold no configured field and no function named
main. -/
def okHiddenD (cfg : List String) : Decl → Bool
  | .record _ inner => okHiddenL cfg inner
  | .func name _ inner =>
    if name = "main" then okHiddenL cfg inner
    else noFieldsL cfg inner && noMainL inner
  | .dother inner => okHiddenL cfg inner

def okHiddenL (cfg : List String) : DeclList → Bool
  | .nil => true
  | .cons d tl => okHiddenD cfg d && okHiddenL cfg tl

end

/-- Witness prefix for the amended C2: a record (with a user method)
declaring Foo::f, then a namespace-like context wrapping a second
record declaring Foo::g - two target-field contributions, no main. -/
def tuC2A : DeclList :=
  .cons (.record [fdF] (.cons (.func "m" none .nil) .nil))
    (.cons (.dother (.cons (.record [fdG] .nil) .nil)) .nil)

/-- main body for the amended C2 witness: plain reads of both target
fields. -/
def bodyC2B : Stm :=
  .compound (.cons (some (.member "obj" "f" 0 "obj.f" ⟨10, 14⟩))
    (.cons (some (.member "obj" "g" 1 "obj.g" ⟨20, 24⟩)) .nil)) ⟨5, 30⟩

/-- Witness suffix for the amended C2: main, then a field-free record
and a further function AFTER main. -/
def tuC2B : DeclList :=
  .cons (.func "main" (some bodyC2B) .nil)
    (.cons (.record [] .nil)
      (.cons (.func "work" none .nil) .nil))

/-- The statement-level assignment obj.f = obj.g where both f and g are
target fields: whole range 40-52, right-hand side obj.g at 48-52. -/
def assignC4 : Stm :=
  .binAssign (.member "obj" "f" 0 "obj.f" ⟨40, 44⟩)
    (.member "obj" "g" 1 "obj.g" ⟨48, 52⟩) "obj.f = obj.g" ⟨40, 52⟩

def bodyC4 : Stm := .compound (.cons (some assignC4) .nil) ⟨25, 60⟩

def tuC4 : DeclList :=
  .cons (.record [fdF, fdG] .nil) (.cons (.func "main" (some bodyC4) .nil) .nil)

/-- Failing input for the brace insertion: the statement
if (c) int a = ++obj.f; - the declaration statement at 36-47 is the
boundary of the prefix increment (40-46, member at 42-46), its parent
is the IfStmt (30-47), not a CompoundStmt. -/
def dstmtC6 : Stm :=
  .declStmt
    (.cons (some (.unIncDec true true (.member "obj" "f" 0 "obj.f" ⟨42, 46⟩)
      "++obj.f" ⟨40, 46⟩)) .nil) ⟨36, 47⟩

def ifC6 : Stm :=
  .otherStmt (.cons (some (.exprOther .nil "c" ⟨31, 32⟩))
    (.cons (some dstmtC6) .nil)) ⟨30, 47⟩

def bodyC6 : Stm := .compound (.cons (some ifC6) .nil) ⟨25, 50⟩

def tuC6 : DeclList :=
  .cons (.record [fdF] .nil) (.cons (.func "main" (some bodyC6) .nil) .nil)

/-- Failing input for accessor placement: the owning type of Bar::g
declares a user-provided method (source end 50) followed by a method
that is not user-provided (e.g. an implicitly declared or defaulted
member appended after it, source end 70). -/
def fdC8 : FieldDecl := ⟨2, "g", "Bar::g", "int", [⟨true, 50⟩, ⟨false, 70⟩], 90⟩

def tuC8 : DeclList := .cons (.record [fdC8] .nil) .nil

/-- A unit with a single function named work (not main) whose body
reads, assigns and increments the target field. -/
def bodyC7 : Stm :=
  .compound
    (.cons (some (.member "obj" "f" 0 "obj.f" ⟨30, 34⟩))
      (.cons (some (.binAssign (.member "obj" "f" 0 "obj.f" ⟨40, 44⟩)
          (.exprOther .nil "3" ⟨47, 48⟩) "obj.f = 3" ⟨40, 48⟩))
        (.cons (some (.unIncDec true true (.member "obj" "f" 0 "obj.f" ⟨52, 56⟩)
          "++obj.f" ⟨50, 56⟩)) .nil))) ⟨25, 60⟩

def tuC7 : DeclList :=
  .cons (.record [fdF] .nil) (.cons (.func "work" (some bodyC7) .nil) .nil)

/- ------------------------------------------------------------------
   Helper lemmas.
   ------------------------------------------------------------------ -/

theorem joinN_one (block : List Edit) : joinN 1 block = block := by
  simp [joinN]

/- ------------------------------------------------------------------
   Claims.
   ------------------------------------------------------------------ -/

/-- C1 (counterexample): on the unit tuC1, whose main body consists of
the single statement with the address-of usage of target field Foo::f
(text of the usage: the ampersand at 40 followed by the member access
obj.f at 41-45), the transform emits an edit replacing the member
access range 41-45 by the getter call obj.getF() - so the original
source text of the usage is NOT left unchanged and the member-access
expression IS replaced by a getter call, contrary to the claim. -/
theorem c1_counterexample :
    runTransform ["Foo::f"] tuC1
      = [Edit.replaceRange ⟨41, 45⟩ "obj.getF()",
         Edit.insertBefore 100 (accText fdF)]
    ∧ Edit.replaceRange ⟨41, 45⟩ "obj.getF()" ∈ runTransform ["Foo::f"] tuC1 := by
  constructor
  · decide
  · decide

/-- C1 (amended): for a non-increment unary operator applied to a
member access of a target field (matched by exactly one fieldRanges
entry), the unary expression is not itself rewritten as an accessor
call and no diagnostic edit is emitted; instead the member
sub-expression is recursively scanned (line 171), which replaces the
member-access range by the getter-call read - so the source text of
the usage changes from, e.g., the ampersand followed by obj.f to the
ampersand followed by obj.getF(). -/
theorem c1_amended (fm : FieldMap) (bT fn : String) (fid : Nat)
    (mt t2 : String) (mr r : Range) (ctx : Ctx) (h : nMatch fm fid = 1) :
    scanS fm (.unOther (.member bT fn fid mt mr) t2 r) ctx
      = [Edit.replaceRange mr (bT ++ "." ++ getterName fn ++ "()")] := by
  simp [scanS, h, joinN_one]

/-- C1 (witness for the amended theorem). -/
theorem c1_amended_witness :
    nMatch [("Foo::f", fdF)] 0 = 1 ∧
    scanS [("Foo::f", fdF)]
        (.unOther (.member "obj" "f" 0 "obj.f" ⟨41, 45⟩) "&obj.f" ⟨40, 46⟩)
        ⟨40, 46, true, false⟩
      = [Edit.replaceRange ⟨41, 45⟩ ("obj" ++ "." ++ getterName "f" ++ "()")] :=
  ⟨by decide,
   c1_amended [("Foo::f", fdF)] "obj" "f" 0 "obj.f" "&obj.f" ⟨41, 45⟩ ⟨40, 46⟩
     ⟨40, 46, true, false⟩ (by decide)⟩

/-- C2 (counterexample): on the unit tuC2, where main PRECEDES the
record that declares target field Foo::f (an ordering the claim
explicitly quantifies over), the interleaved single pass of
HandleTranslationUnit scans the body of main while fieldRanges is still
empty, so the plain read of the field is not matched; the two-phase
run prescribed by the spec (complete Field Selector pass first, then
Usage Matcher against the final target-field set) does match it.
Hence a usage-match decision is NOT made against the final
target-field set regardless of declaration order. -/
theorem c2_counterexample :
    runTransform ["Foo::f"] tuC2 ≠ runTwoPhase ["Foo::f"] tuC2 := by
  decide

/- C2 helper lemmas for the amended claim: behaviour of the two passes
on declaration sequences that contribute no fields or contain no main
function, and decomposition of both passes over concatenation. -/

theorem addFields_id (cfg : List String) :
    ∀ (fs : List FieldDecl) (fm : FieldMap),
      fs.all (fun fd => !(cfg.contains fd.qname)) = true → addFields cfg fs fm = fm := by
  intro fs
  induction fs with
  | nil => intro fm _; rfl
  | cons fd rest ih =>
    intro fm h
    rw [List.all_cons, Bool.and_eq_true] at h
    rw [addFields]
    have h1 : cfg.contains fd.qname = false := by
      cases hc : cfg.contains fd.qname
      · rfl
      · rw [hc] at h; cases h.1
    rw [if_neg (by rw [h1]; exact Bool.false_ne_true)]
    exact ih fm h.2

mutual
theorem specFieldPass_id_D (cfg : List String) (d : Decl) (fm : FieldMap)
    (h : noFieldsD cfg d = true) : specFieldPassD cfg d fm = fm := by
  cases d with
  | record fs inner =>
    rw [noFieldsD, Bool.and_eq_true] at h
    rw [specFieldPassD, addFields_id cfg fs fm h.1]
    exact specFieldPass_id_L cfg inner fm h.2
  | func name body inner =>
    rw [noFieldsD] at h
    rw [specFieldPassD]
    exact specFieldPass_id_L cfg inner fm h
  | dother inner =>
    rw [noFieldsD] at h
    rw [specFieldPassD]
    exact specFieldPass_id_L cfg inner fm h

theorem specFieldPass_id_L (cfg : List String) (l : DeclList) (fm : FieldMap)
    (h : noFieldsL cfg l = true) : specFieldPassDL cfg l fm = fm := by
  cases l with
  | nil => rfl
  | cons d tl =>
    rw [noFieldsL, Bool.and_eq_true] at h
    rw [specFieldPassDL, specFieldPass_id_D cfg d fm h.1]
    exact specFieldPass_id_L cfg tl fm h.2
end

mutual
theorem specUsagePass_nil_D (fm : FieldMap) (d : Decl) (h : noMainD d = true) :
    specUsagePassD fm d = [] := by
  cases d with
  | record fs inner =>
    rw [noMainD] at h
    rw [specUsagePassD]
    exact specUsagePass_nil_L fm inner h
  | func name body inner =>
    rw [noMainD] at h
    by_cases hn : name = "main"
    · rw [if_pos hn] at h; cases h
    · rw [if_neg hn] at h
      simp only [specUsagePassD]
      rw [if_neg hn, List.nil_append]
      exact specUsagePass_nil_L fm inner h
  | dother inner =>
    rw [noMainD] at h
    rw [specUsagePassD]
    exact specUsagePass_nil_L fm inner h

theorem specUsagePass_nil_L (fm : FieldMap) (l : DeclList) (h : noMainL l = true) :
    specUsagePassDL fm l = [] := by
  cases l with
  | nil => rfl
  | cons d tl =>
    rw [noMainL, Bool.and_eq_true] at h
    rw [specUsagePassDL, specUsagePass_nil_D fm d h.1, List.nil_append]
    exact specUsagePass_nil_L fm tl h.2
end

/- On a main-free okHidden prefix, the interleaved pass performs
exactly the field pass of the spec and emits no edit. -/
mutual
theorem collect_eq_fieldPass_D (cfg : List String) (d : Decl)
    (st : FieldMap × List Edit) (h1 : noMainD d = true)
    (h2 : okHiddenD cfg d = true) :
    collectD cfg d st = (specFieldPassD cfg d st.1, st.2) := by
  cases d with
  | record fs inner =>
    rw [noMainD] at h1
    rw [okHiddenD] at h2
    rw [collectD, specFieldPassD]
    exact collect_eq_fieldPass_L cfg inner _ h1 h2
  | func name body inner =>
    rw [noMainD] at h1
    by_cases hn : name = "main"
    · rw [if_pos hn] at h1; cases h1
    · rw [okHiddenD, if_neg hn, Bool.and_eq_true] at h2
      simp only [collectD, specFieldPassD]
      rw [if_neg hn, specFieldPass_id_L cfg inner st.1 h2.1]
  | dother inner =>
    rw [noMainD] at h1
    rw [okHiddenD] at h2
    rw [collectD, specFieldPassD]
    exact collect_eq_fieldPass_L cfg inner st h1 h2

theorem collect_eq_fieldPass_L (cfg : List String) (l : DeclList)
    (st : FieldMap × List Edit) (h1 : noMainL l = true)
    (h2 : okHiddenL cfg l = true) :
    collectDL cfg l st = (specFieldPassDL cfg l st.1, st.2) := by
  cases l with
  | nil => rfl
  | cons d tl =>
    rw [noMainL, Bool.and_eq_true] at h1
    rw [okHiddenL, Bool.and_eq_true] at h2
    rw [collectDL, specFieldPassDL,
      collect_eq_fieldPass_D cfg d st h1.1 h2.1]
    exact collect_eq_fieldPass_L cfg tl _ h1.2 h2.2
end

/- On a field-free okHidden suffix, the interleaved pass leaves the
map unchanged and appends exactly the edits of the usage pass of the
spec taken against that (final) map. -/
mutual
theorem collect_eq_usagePass_D (cfg : List String) (d : Decl)
    (st : FieldMap × List Edit) (h1 : noFieldsD cfg d = true)
    (h2 : okHiddenD cfg d = true) :
    collectD cfg d st = (st.1, st.2 ++ specUsagePassD st.1 d) := by
  cases d with
  | record fs inner =>
    rw [noFieldsD, Bool.and_eq_true] at h1
    rw [okHiddenD] at h2
    rw [collectD, specUsagePassD, addFields_id cfg fs st.1 h1.1]
    exact collect_eq_usagePass_L cfg inner st h1.2 h2
  | func name body inner =>
    rw [noFieldsD] at h1
    by_cases hn : name = "main"
    · subst hn
      rw [okHiddenD, if_pos rfl] at h2
      simp only [collectD, specUsagePassD, if_true]
      cases body with
      | none =>
        rw [collect_eq_usagePass_L cfg inner st h1 h2, List.nil_append]
      | some b =>
        rw [collect_eq_usagePass_L cfg inner
          (st.1, st.2 ++ scanS st.1 b (initCtx b)) h1 h2, List.append_assoc]
    · rw [okHiddenD, if_neg hn, Bool.and_eq_true] at h2
      simp only [collectD, specUsagePassD]
      rw [if_neg hn, if_neg hn,
        specUsagePass_nil_L st.1 inner h2.2, List.nil_append, List.append_nil]
  | dother inner =>
    rw [noFieldsD] at h1
    rw [okHiddenD] at h2
    rw [collectD, specUsagePassD]
    exact collect_eq_usagePass_L cfg inner st h1 h2

theorem collect_eq_usagePass_L (cfg : List String) (l : DeclList)
    (st : FieldMap × List Edit) (h1 : noFieldsL cfg l = true)
    (h2 : okHiddenL cfg l = true) :
    collectDL cfg l st = (st.1, st.2 ++ specUsagePassDL st.1 l) := by
  cases l with
  | nil => rw [collectDL, specUsagePassDL, List.append_nil]
  | cons d tl =>
    rw [noFieldsL, Bool.and_eq_true] at h1
    rw [okHiddenL, Bool.and_eq_true] at h2
    rw [collectDL, specUsagePassDL, collect_eq_usagePass_D cfg d st h1.1 h2.1,
      collect_eq_usagePass_L cfg tl _ h1.2 h2.2, List.append_assoc]
end

theorem collectDL_append (cfg : List String) (A B : DeclList)
    (st : FieldMap × List Edit) :
    collectDL cfg (appendDL A B) st = collectDL cfg B (collectDL cfg A st) := by
  cases A with
  | nil => rfl
  | cons d tl =>
    rw [appendDL, collectDL, collectDL]
    exact collectDL_append cfg tl B _

theorem specFieldPassDL_append (cfg : List String) (A B : DeclList) (fm : FieldMap) :
    specFieldPassDL cfg (appendDL A B) fm
      = specFieldPassDL cfg B (specFieldPassDL cfg A fm) := by
  cases A with
  | nil => rfl
  | cons d tl =>
    rw [appendDL, specFieldPassDL, specFieldPassDL]
    exact specFieldPassDL_append cfg tl B _

theorem specUsagePassDL_append (fm : FieldMap) (A B : DeclList) :
    specUsagePassDL fm (appendDL A B)
      = specUsagePassDL fm A ++ specUsagePassDL fm B := by
  cases A with
  | nil => rw [appendDL, specUsagePassDL, List.nil_append]
  | cons d tl =>
    rw [appendDL, specUsagePassDL, specUsagePassDL,
      specUsagePassDL_append fm tl B, List.append_assoc]

/-- C2 (amended): field collection and usage matching are interleaved
in one pass over the declaration tree, so a match decision sees only
the target fields collected so far.  The two-phase control flow of the
spec is nevertheless obtained for every unit that splits into a prefix
containing no function named main followed by a suffix contributing no
target fields - that is, whenever every record contributing target
fields precedes every scanned main function in traversal order, the
ordering that C++ declaration-before-use guarantees for real inputs -
provided additionally that no configured field and no main function is
hidden inside the context of a non-main function, contexts the
interleaved pass never enters (the continue at line 60) although the
spec recurses into every declaration context.  Under these conditions
every usage-match decision agrees with one made against the final
target-field set. -/
theorem c2_amended (cfg : List String) (A B : DeclList)
    (hA1 : noMainL A = true) (hA2 : okHiddenL cfg A = true)
    (hB1 : noFieldsL cfg B = true) (hB2 : okHiddenL cfg B = true) :
    runTransform cfg (appendDL A B) = runTwoPhase cfg (appendDL A B) := by
  have hcoll : collectDL cfg (appendDL A B) ([], [])
      = (specFieldPassDL cfg A [],
         specUsagePassDL (specFieldPassDL cfg A []) B) := by
    rw [collectDL_append, collect_eq_fieldPass_L cfg A ([], []) hA1 hA2,
      collect_eq_usagePass_L cfg B _ hB1 hB2, List.nil_append]
  have hfm : specFieldPassDL cfg (appendDL A B) []
      = specFieldPassDL cfg A [] := by
    rw [specFieldPassDL_append]
    exact specFieldPass_id_L cfg B _ hB1
  unfold runTransform runTwoPhase
  rw [hcoll, hfm, specUsagePassDL_append,
    specUsagePass_nil_L _ A hA1, List.nil_append]

/-- C2 (witness for the amended theorem): prefix tuC2A holds two
records contributing Foo::f and Foo::g (one record with a user method,
one wrapped in a namespace-like context); suffix tuC2B holds main
(reading both fields) followed by a field-free record and another
function after main. -/
theorem c2_amended_witness :
    noMainL tuC2A = true ∧ okHiddenL ["Foo::f", "Foo::g"] tuC2A = true ∧
    noFieldsL ["Foo::f", "Foo::g"] tuC2B = true ∧
    okHiddenL ["Foo::f", "Foo::g"] tuC2B = true ∧
    runTransform ["Foo::f", "Foo::g"] (appendDL tuC2A tuC2B)
      = runTwoPhase ["Foo::f", "Foo::g"] (appendDL tuC2A tuC2B) :=
  ⟨by decide, by decide, by decide, by decide,
   c2_amended ["Foo::f", "Foo::g"] tuC2A tuC2B
     (by decide) (by decide) (by decide) (by decide)⟩

/-- C3: a compound assignment on a target field (matched by exactly one
fieldRanges entry) used as a sub-expression of a larger top-level
statement produces, after the recursive scan of its right-hand side,
exactly the two edits the claim describes: the statement
base.setter( base.getter() OP rhs );\n inserted immediately before the
start of the enclosing top-level statement boundary, and the in-place
replacement of the whole compound assignment by the getter read
base.getter() - whence the enclosing statement observes the
post-assignment value. -/
theorem c3_compound_subexpr (fm : FieldMap) (op bT fn : String) (fid : Nat)
    (mt : String) (mr : Range) (rhs : Stm) (t : String) (r : Range) (ctx : Ctx)
    (h : nMatch fm fid = 1) (hs : ctx.isTop = false) :
    scanS fm (.binCompound op (.member bT fn fid mt mr) rhs t r) ctx
      = scanS fm rhs (subCtx ctx) ++
        [Edit.insertBefore ctx.topStart
          (bT ++ "." ++ setterName fn ++ "( " ++ bT ++ "." ++ getterName fn ++ "() "
            ++ op ++ " " ++ ptxt rhs ++ " );\n"),
         Edit.replaceRange r (bT ++ "." ++ getterName fn ++ "()")] := by
  simp [scanS, h, hs, joinN_one]

/-- C3 (witness): the sub-expression compound assignment
obj.f += 3 inside the declaration statement at 36-52, with Foo::f the
single target field. -/
theorem c3_witness :
    nMatch [("Foo::f", fdF)] 0 = 1 ∧ (⟨36, 52, false, true⟩ : Ctx).isTop = false ∧
    scanS [("Foo::f", fdF)]
        (.binCompound "+" (.member "obj" "f" 0 "obj.f" ⟨40, 44⟩)
          (.exprOther .nil "3" ⟨48, 49⟩) "obj.f += 3" ⟨40, 49⟩)
        ⟨36, 52, false, true⟩
      = scanS [("Foo::f", fdF)] (.exprOther .nil "3" ⟨48, 49⟩)
          (subCtx ⟨36, 52, false, true⟩) ++
        [Edit.insertBefore 36
          ("obj" ++ "." ++ setterName "f" ++ "( " ++ "obj" ++ "." ++ getterName "f"
            ++ "() " ++ "+" ++ " " ++ ptxt (.exprOther .nil "3" ⟨48, 49⟩) ++ " );\n"),
         Edit.replaceRange ⟨40, 49⟩ ("obj" ++ "." ++ getterName "f" ++ "()")] :=
  ⟨by decide, by decide,
   c3_compound_subexpr [("Foo::f", fdF)] "+" "obj" "f" 0 "obj.f" ⟨40, 44⟩
     (.exprOther .nil "3" ⟨48, 49⟩) "obj.f += 3" ⟨40, 49⟩ ⟨36, 52, false, true⟩
     (by decide) (by decide)⟩

/-- C4 (counterexample): on the unit tuC4, whose main body is the
statement-level simple assignment obj.f = obj.g with both f and g
target fields, the edit replacing the whole assignment carries the text
obj.setF( obj.g ) - the right-hand side appears in its ORIGINAL
pretty-printed form, not as the accessor call obj.getG(); the recursive
scan of the right-hand side instead queues a separate edit against the
own source range 48-52 of the right-hand side, which lies inside the
replaced range 40-52.  No queued edit carries the text the claim
requires, obj.setF( obj.getG() ). -/
theorem c4_counterexample :
    runTransform ["Foo::f", "Foo::g"] tuC4
      = [Edit.replaceRange ⟨48, 52⟩ "obj.getG()",
         Edit.replaceRange ⟨40, 52⟩ "obj.setF( obj.g )",
         Edit.insertBefore 100 (accText fdF),
         Edit.insertBefore 100 (accText fdG)]
    ∧ Edit.replaceRange ⟨40, 52⟩ "obj.setF( obj.getG() )"
        ∉ runTransform ["Foo::f", "Foo::g"] tuC4 := by
  constructor
  · decide
  · decide

/-- C4 (amended): for a statement-level simple assignment on a target
field (matched by exactly one fieldRanges entry), the right-hand side
is first recursively scanned - queueing its accessor edits against the
ORIGINAL source range of the right-hand side - and then the whole assignment
range is replaced by base.setter( rhs ) where rhs is the original
pretty-printed text of the right-hand side; targeted usages inside the
right-hand side do not appear as accessor calls inside the emitted
setter-call text. -/
theorem c4_amended (fm : FieldMap) (bT fn : String) (fid : Nat)
    (mt : String) (mr : Range) (rhs : Stm) (t : String) (r : Range) (ctx : Ctx)
    (h : nMatch fm fid = 1) (_hs : ctx.isTop = true) :
    scanS fm (.binAssign (.member bT fn fid mt mr) rhs t r) ctx
      = scanS fm rhs (subCtx ctx) ++
        [Edit.replaceRange r (bT ++ "." ++ setterName fn ++ "( " ++ ptxt rhs ++ " )")] := by
  simp [scanS, h, joinN_one]

/-- C4 (witness for the amended theorem): the assignment of tuC4. -/
theorem c4_amended_witness :
    nMatch [("Foo::f", fdF), ("Foo::g", fdG)] 0 = 1 ∧
    (⟨40, 52, true, true⟩ : Ctx).isTop = true ∧
    scanS [("Foo::f", fdF), ("Foo::g", fdG)] assignC4 ⟨40, 52, true, true⟩
      = scanS [("Foo::f", fdF), ("Foo::g", fdG)]
          (.member "obj" "g" 1 "obj.g" ⟨48, 52⟩) (subCtx ⟨40, 52, true, true⟩) ++
        [Edit.replaceRange ⟨40, 52⟩
          ("obj" ++ "." ++ setterName "f" ++ "( "
            ++ ptxt (.member "obj" "g" 1 "obj.g" ⟨48, 52⟩) ++ " )")] :=
  ⟨by decide, by decide,
   c4_amended [("Foo::f", fdF), ("Foo::g", fdG)] "obj" "f" 0 "obj.f" ⟨40, 44⟩
     (.member "obj" "g" 1 "obj.g" ⟨48, 52⟩) "obj.f = obj.g" ⟨40, 52⟩
     ⟨40, 52, true, true⟩ (by decide) (by decide)⟩

/-- C5: for an increment or decrement of a target field (matched by
exactly one fieldRanges entry) used as a sub-expression, the prefix
form emits its synthesized setter-call statement via InsertTextBefore
at the START of the enclosing top-level statement boundary, while the
postfix form emits it via InsertTextAfter at the END location of that
boundary - the two cases always differ in insertion side, preserving
new-value versus old-value semantics (brace edits, when the parent
of the boundary is not a compound statement, are the same in both
cases). -/
theorem c5_incdec_sides (fm : FieldMap) (bT fn : String) (fid : Nat)
    (mt : String) (mr : Range) (isInc : Bool) (t1 t2 : String) (r1 r2 : Range)
    (ctx : Ctx) (h : nMatch fm fid = 1) (hs : ctx.isTop = false) :
    scanS fm (.unIncDec isInc true (.member bT fn fid mt mr) t1 r1) ctx
      = (if ctx.parentOfTopIsCompound then [] else [Edit.insertBefore ctx.topStart "\x7b\n"]) ++
        [Edit.insertBefore ctx.topStart
          (bT ++ "." ++ setterName fn ++ "( " ++ bT ++ "." ++ getterName fn ++ "() "
            ++ (if isInc then "+" else "-") ++ " 1)" ++ ";\n")] ++
        (if ctx.parentOfTopIsCompound then [] else [Edit.insertAfter ctx.topStart "\x7d\n"])
    ∧ scanS fm (.unIncDec isInc false (.member bT fn fid mt mr) t2 r2) ctx
      = (if ctx.parentOfTopIsCompound then [] else [Edit.insertBefore ctx.topStart "\x7b\n"]) ++
        [Edit.insertAfter ctx.topEnd
          (";\n" ++ bT ++ "." ++ setterName fn ++ "( " ++ bT ++ "." ++ getterName fn ++ "() "
            ++ (if isInc then "+" else "-") ++ " 1)")] ++
        (if ctx.parentOfTopIsCompound then [] else [Edit.insertAfter ctx.topStart "\x7d\n"]) := by
  cases hpc : ctx.parentOfTopIsCompound <;>
    constructor <;> simp [scanS, h, hs, hpc, joinN_one]

/-- C5 (witness): int a = ++obj.f; and int b = obj.f++; inside a
compound block - the prefix setter statement is inserted before the
declaration statement at 36, the postfix one after its end location
52. -/
theorem c5_witness :
    nMatch [("Foo::f", fdF)] 0 = 1 ∧ (⟨36, 52, false, true⟩ : Ctx).isTop = false ∧
    (scanS [("Foo::f", fdF)]
        (.unIncDec true true (.member "obj" "f" 0 "obj.f" ⟨44, 48⟩) "++obj.f" ⟨42, 48⟩)
        ⟨36, 52, false, true⟩
      = (if (⟨36, 52, false, true⟩ : Ctx).parentOfTopIsCompound then []
         else [Edit.insertBefore 36 "\x7b\n"]) ++
        [Edit.insertBefore 36
          ("obj" ++ "." ++ setterName "f" ++ "( " ++ "obj" ++ "." ++ getterName "f"
            ++ "() " ++ (if true then "+" else "-") ++ " 1)" ++ ";\n")] ++
        (if (⟨36, 52, false, true⟩ : Ctx).parentOfTopIsCompound then []
         else [Edit.insertAfter 36 "\x7d\n"])
    ∧ scanS [("Foo::f", fdF)]
        (.unIncDec true false (.member "obj" "f" 0 "obj.f" ⟨44, 48⟩) "obj.f++" ⟨44, 50⟩)
        ⟨36, 52, false, true⟩
      = (if (⟨36, 52, false, true⟩ : Ctx).parentOfTopIsCompound then []
         else [Edit.insertBefore 36 "\x7b\n"]) ++
        [Edit.insertAfter 52
          (";\n" ++ "obj" ++ "." ++ setterName "f" ++ "( " ++ "obj" ++ "." ++ getterName "f"
            ++ "() " ++ (if true then "+" else "-") ++ " 1)")] ++
        (if (⟨36, 52, false, true⟩ : Ctx).parentOfTopIsCompound then []
         else [Edit.insertAfter 36 "\x7d\n"])) :=
  ⟨by decide, by decide,
   c5_incdec_sides [("Foo::f", fdF)] "obj" "f" 0 "obj.f" ⟨44, 48⟩ true
     "++obj.f" "obj.f++" ⟨42, 48⟩ ⟨44, 50⟩ ⟨36, 52, false, true⟩
     (by decide) (by decide)⟩

/-- C6 (code bug, evaluation at the failing input): on tuC6, whose main
body is if (c) int a = ++obj.f; - a prefix increment of target field
Foo::f used as a sub-expression whose enclosing top-level statement
(the declaration statement spanning 36-47) is NOT a member of a
compound block - the transform emits the opening brace via
InsertTextBefore at offset 36 AND the closing brace via InsertTextAfter
at the same offset 36, the START of the statement (line 196 of the source
uses getLocStart for the closing brace); since InsertTextBefore places
text before, and InsertTextAfter after, everything previously inserted
at that location, the buffer at offset 36 becomes the setter statement,
then the opening brace, then the closing brace - an empty block in
front of the unwrapped original statement, not a block around it.  In
particular the closing-brace InsertTextAfter edit (the only
InsertTextAfter edit emitted) is anchored at 36, not at or after the
end of the statement, 47. -/
theorem c6_failing_eval :
    runTransform ["Foo::f"] tuC6
      = [Edit.insertBefore 36 "\x7b\n",
         Edit.insertBefore 36 "obj.setF( obj.getF() + 1);\n",
         Edit.insertAfter 36 "\x7d\n",
         Edit.insertBefore 100 (accText fdF)]
    ∧ (runTransform ["Foo::f"] tuC6).all
        (fun e => match e with
          | Edit.insertAfter p _ => p == 36
          | _ => true) = true := by
  constructor
  · decide
  · decide

/-- C8 (code bug, evaluation at the failing input): for target field
Bar::g, where the method list of the owning type is a user-provided method
(source end 50) followed by a method that is not user-provided, the
replace phase produces NO insertion at all: hasUserDefinedMethods is
true, but the lastMethod/check loop of lines 278-297 only breaks after
processing the final list element when that element is user-provided -
here the final element is not, so the loop dereferences the end
iterator (undefined behaviour, modelled as no well-defined insertion).
The claim instead requires one insertion immediately after offset 50,
the source end of the last user-authored method. -/
theorem c8_failing_eval :
    runTransform ["Bar::g"] tuC8 = []
    ∧ lastUserLoc fdC8.parentMethods = none
    ∧ fdC8.parentMethods.any (fun m => m.userProvided) = true := by
  refine ⟨by decide, by decide, by decide⟩

/- C7 helper: erasing the bodies of functions not named main does not
change the result of the collect pass (proved mutually over the
declaration tree). -/
mutual
theorem collect_eraseD (cfg : List String) (d : Decl) (st : FieldMap × List Edit) :
    collectD cfg (eraseD d) st = collectD cfg d st := by
  cases d with
  | record fs inner =>
    simp only [eraseD, collectD]
    exact collect_eraseDL cfg inner _
  | func name body inner =>
    by_cases h : name = "main"
    · subst h
      simp only [eraseD, collectD, if_pos rfl]
      exact collect_eraseDL cfg inner _
    · simp only [eraseD, collectD, if_neg h]
  | dother inner =>
    simp only [eraseD, collectD]
    exact collect_eraseDL cfg inner st

theorem collect_eraseDL (cfg : List String) (l : DeclList) (st : FieldMap × List Edit) :
    collectDL cfg (eraseL l) st = collectDL cfg l st := by
  cases l with
  | nil => rfl
  | cons d tl =>
    simp only [eraseL, collectDL]
    rw [collect_eraseD cfg d st]
    exact collect_eraseDL cfg tl _
end

/-- C7: usage rewriting happens only inside the bodies of functions
literally named main - erasing the body of every function not named
main (eraseL / eraseD) leaves the entire output of the transform
unchanged, for every configuration and every translation unit; in
particular no usage of any target field inside such a body is ever
modified, whatever reads, assignments or increments it contains. -/
theorem c7_main_only (cfg : List String) (tu : DeclList) :
    runTransform cfg (eraseL tu) = runTransform cfg tu := by
  unfold runTransform
  rw [collect_eraseDL]

/- C9 helpers: the fieldRanges map built by the collect pass is sorted
by key (std::map invariant), hence holds at most one entry per
qualified name - the transform therefore emits exactly one accessor
block per target field. -/

theorem charListLt_irrefl : ∀ a : List Char, charListLt a a = false := by
  intro a
  induction a with
  | nil => rfl
  | cons x xs ih => simp [charListLt, ih]

theorem charListLt_trans :
    ∀ a b c : List Char, charListLt a b = true → charListLt b c = true →
      charListLt a c = true := by
  intro a
  induction a with
  | nil =>
    intro b c _ hbc
    cases c with
    | nil => cases b <;> simp [charListLt] at hbc
    | cons z zs => simp [charListLt]
  | cons x xs ih =>
    intro b c hab hbc
    cases b with
    | nil => simp [charListLt] at hab
    | cons y ys =>
      cases c with
      | nil => simp [charListLt] at hbc
      | cons z zs =>
        simp only [charListLt, Bool.or_eq_true, Bool.and_eq_true,
          decide_eq_true_eq, beq_iff_eq] at hab hbc ⊢
        rcases hab with hab | ⟨hab, habr⟩
        · rcases hbc with hbc | ⟨hbc, _⟩
          · exact Or.inl (lt_trans hab hbc)
          · exact Or.inl (hbc ▸ hab)
        · rcases hbc with hbc | ⟨hbc, hbcr⟩
          · exact Or.inl (hab ▸ hbc)
          · exact Or.inr ⟨hab.trans hbc, ih ys zs habr hbcr⟩

theorem charListLt_of_not_lt_of_ne :
    ∀ a b : List Char, charListLt a b = false → a ≠ b → charListLt b a = true := by
  intro a
  induction a with
  | nil =>
    intro b hf hne
    cases b with
    | nil => exact absurd rfl hne
    | cons y ys => simp [charListLt] at hf
  | cons x xs ih =>
    intro b hf hne
    cases b with
    | nil => simp [charListLt]
    | cons y ys =>
      simp only [charListLt, Bool.or_eq_false_iff, Bool.and_eq_false_iff,
        decide_eq_false_iff_not, beq_eq_false_iff_ne, ne_eq] at hf
      rcases hf with ⟨hxy, hf2⟩
      simp only [charListLt, Bool.or_eq_true, Bool.and_eq_true,
        decide_eq_true_eq, beq_iff_eq]
      rcases lt_trichotomy x y with h3 | h3 | h3
      · exact absurd h3 hxy
      · subst h3
        rcases hf2 with hf2 | hf2
        · exact absurd rfl hf2
        · refine Or.inr ⟨rfl, ih ys hf2 ?_⟩
          intro hys
          exact hne (by rw [hys])
      · exact Or.inl h3

/-- Key order of the fieldRanges map. -/
def keyLt (e1 e2 : String × FieldDecl) : Prop := strLt e1.1 e2.1 = true

theorem strLt_trans {a b c : String} (h1 : strLt a b = true) (h2 : strLt b c = true) :
    strLt a c = true :=
  charListLt_trans a.data b.data c.data h1 h2

theorem strLt_of_not_lt_of_ne {a b : String} (h1 : strLt a b = false) (h2 : a ≠ b) :
    strLt b a = true := by
  refine charListLt_of_not_lt_of_ne a.data b.data h1 ?_
  intro hd
  exact h2 (String.ext hd)

theorem strLt_ne {a b : String} (h : strLt a b = true) : a ≠ b := by
  intro he
  subst he
  rw [strLt, charListLt_irrefl] at h
  cases h

theorem mem_mapInsert {x : String × FieldDecl} {k : String} {v : FieldDecl} :
    ∀ {m : FieldMap}, x ∈ mapInsert k v m → x = (k, v) ∨ x ∈ m := by
  intro m
  induction m with
  | nil =>
    intro h
    simp only [mapInsert, List.mem_singleton] at h
    exact Or.inl h
  | cons a t ih =>
    intro h
    simp only [mapInsert] at h
    split at h
    · rcases List.mem_cons.mp h with h2 | h2
      · exact Or.inl h2
      · exact Or.inr h2
    · split at h
      · rcases List.mem_cons.mp h with h2 | h2
        · exact Or.inl h2
        · exact Or.inr (List.mem_cons_of_mem _ h2)
      · rcases List.mem_cons.mp h with h2 | h2
        · exact Or.inr (h2 ▸ List.mem_cons_self _ _)
        · rcases ih h2 with h3 | h3
          · exact Or.inl h3
          · exact Or.inr (List.mem_cons_of_mem _ h3)

theorem pairwise_mapInsert (k : String) (v : FieldDecl) :
    ∀ m : FieldMap, m.Pairwise keyLt → (mapInsert k v m).Pairwise keyLt := by
  intro m
  induction m with
  | nil => intro _; simp [mapInsert]
  | cons a t ih =>
    intro hp
    rcases List.pairwise_cons.mp hp with ⟨ha, ht⟩
    simp only [mapInsert]
    split
    · rename_i hk
      refine List.pairwise_cons.mpr ⟨?_, hp⟩
      intro x hx
      rcases List.mem_cons.mp hx with rfl | hx2
      · exact hk
      · exact strLt_trans hk (ha x hx2)
    · split
      · rename_i hne hkeq
        refine List.pairwise_cons.mpr ⟨?_, ht⟩
        intro x hx
        unfold keyLt
        rw [hkeq]
        exact ha x hx
      · rename_i hnlt hne
        have hak : strLt a.1 k = true :=
          strLt_of_not_lt_of_ne (Bool.eq_false_iff.mpr ?hne2) hne
        case hne2 =>
          intro hcontra
          exact hnlt hcontra
        refine List.pairwise_cons.mpr ⟨?_, ih ht⟩
        intro x hx
        rcases mem_mapInsert hx with rfl | hx2
        · exact hak
        · exact ha x hx2

theorem pairwise_addFields (cfg : List String) :
    ∀ (fs : List FieldDecl) (fm : FieldMap), fm.Pairwise keyLt →
      (addFields cfg fs fm).Pairwise keyLt := by
  intro fs
  induction fs with
  | nil => intro fm h; simpa [addFields] using h
  | cons fd rest ih =>
    intro fm h
    rw [addFields]
    apply ih
    split
    · exact pairwise_mapInsert _ _ _ h
    · exact h

mutual
theorem pairwise_collectD (cfg : List String) (d : Decl) (st : FieldMap × List Edit)
    (h : st.1.Pairwise keyLt) : ((collectD cfg d st).1).Pairwise keyLt := by
  cases d with
  | record fs inner =>
    simp only [collectD]
    exact pairwise_collectDL cfg inner _ (pairwise_addFields cfg fs st.1 h)
  | func name body inner =>
    simp only [collectD]
    split
    · cases body with
      | none => exact pairwise_collectDL cfg inner st h
      | some b => exact pairwise_collectDL cfg inner _ h
    · exact h
  | dother inner =>
    simp only [collectD]
    exact pairwise_collectDL cfg inner st h

theorem pairwise_collectDL (cfg : List String) (l : DeclList) (st : FieldMap × List Edit)
    (h : st.1.Pairwise keyLt) : ((collectDL cfg l st).1).Pairwise keyLt := by
  cases l with
  | nil => exact h
  | cons d tl =>
    simp only [collectDL]
    exact pairwise_collectDL cfg tl _ (pairwise_collectD cfg d st h)
end

/-- Whether the accessor-insertion location of the owning type is
well defined (the type has no user-provided method, or the method
lastMethod walk over the method list terminates). -/
def placingOK (fd : FieldDecl) : Bool :=
  !(fd.parentMethods.any (fun m => m.userProvided)) ||
    (lastUserLoc fd.parentMethods).isSome

/-- The emitted accessor block coincides with the block prescribed by
the spec (section 4.3 and the AccessorSpec of section 3). -/
theorem accText_eq_spec (fd : FieldDecl) :
    accText fd = specAccessorBlock fd.name fd.typeStr := by
  apply String.ext
  simp only [accText, specAccessorBlock, String.data_append, List.append_assoc]
  rfl

/-- C9: (a) the fieldRanges map built by the collect pass is keyed by
distinct qualified names, so the replace phase runs its per-field body
exactly once per target field; and (b) for every target field whose
accessor-insertion location is well defined, that per-field body emits
exactly ONE insertion edit whose text is precisely the accessor block
prescribed by the spec: one const getter returning a const reference,
one non-const getter returning a mutable reference, and one setter
taking a const reference parameter and assigning it to the field, their
names derived deterministically by capitalizing the first letter of the
field name and prefixing get, get and set. -/
theorem c9_accessor_synthesis :
    (∀ (cfg : List String) (tu : DeclList),
      (((collectDL cfg tu ([], [])).1).map (fun e => e.1)).Nodup)
    ∧ (∀ fd : FieldDecl, placingOK fd = true →
        ∃ e, replaceOne fd = [e] ∧ editText e = specAccessorBlock fd.name fd.typeStr) := by
  constructor
  · intro cfg tu
    have hp : ((collectDL cfg tu ([], [])).1).Pairwise keyLt :=
      pairwise_collectDL cfg tu ([], []) (List.Pairwise.nil)
    exact List.Pairwise.map (fun e : String × FieldDecl => e.1)
      (fun a b hab => strLt_ne hab) hp
  · intro fd hok
    unfold replaceOne
    by_cases hu : fd.parentMethods.any (fun m => m.userProvided) = true
    · rw [if_pos hu]
      have hsome : (lastUserLoc fd.parentMethods).isSome = true := by
        unfold placingOK at hok
        rw [hu] at hok
        simpa using hok
      rcases Option.isSome_iff_exists.mp hsome with ⟨l, hl⟩
      rw [hl]
      exact ⟨Edit.insertAfterToken l (accText fd),
        rfl, by rw [editText, accText_eq_spec]⟩
    · rw [if_neg hu]
      exact ⟨Edit.insertBefore fd.parentRBrace (accText fd),
        rfl, by rw [editText, accText_eq_spec]⟩

/-- C9 (witness): the target field Foo::f of a type without
user-provided methods. -/
theorem c9_witness :
    placingOK fdF = true ∧
    (∃ e, replaceOne fdF = [e] ∧ editText e = specAccessorBlock fdF.name fdF.typeStr) :=
  ⟨by decide, c9_accessor_synthesis.2 fdF (by decide)⟩

/-- C10: a simple assignment (BO_Assign) on a target field (matched by
exactly one fieldRanges entry) is rewritten the same way in EVERY
context: whatever the top-level-statement boundary context - in
particular when the assignment is a sub-expression of a larger
statement - the whole assignment range is replaced in place by
base.setter( rhs ) after the recursive scan of the right-hand side,
with no helper statement inserted and no statement-level check
performed (the rewrite does not consult ctx.isTop, unlike the
compound-assignment case). -/
theorem c10_assign_subexpr (fm : FieldMap) (bT fn : String) (fid : Nat)
    (mt : String) (mr : Range) (rhs : Stm) (t : String) (r : Range) (ctx : Ctx)
    (h : nMatch fm fid = 1) :
    scanS fm (.binAssign (.member bT fn fid mt mr) rhs t r) ctx
      = scanS fm rhs (subCtx ctx) ++
        [Edit.replaceRange r (bT ++ "." ++ setterName fn ++ "( " ++ ptxt rhs ++ " )")] := by
  simp [scanS, h, joinN_one]

/-- C10 (witness): int z = (obj.f = 5); - the assignment used as a
sub-expression of a declaration statement (boundary 36-55, the
assignment itself not the boundary): the only edit beyond the scan of
the literal right-hand side is the in-place replacement. -/
theorem c10_witness :
    nMatch [("Foo::f", fdF)] 0 = 1 ∧
    scanS [("Foo::f", fdF)]
        (.binAssign (.member "obj" "f" 0 "obj.f" ⟨45, 49⟩)
          (.exprOther .nil "5" ⟨52, 53⟩) "obj.f = 5" ⟨45, 53⟩)
        ⟨36, 55, false, true⟩
      = scanS [("Foo::f", fdF)] (.exprOther .nil "5" ⟨52, 53⟩)
          (subCtx ⟨36, 55, false, true⟩) ++
        [Edit.replaceRange ⟨45, 53⟩
          ("obj" ++ "." ++ setterName "f" ++ "( "
            ++ ptxt (.exprOther .nil "5" ⟨52, 53⟩) ++ " )")] :=
  ⟨by decide,
   c10_assign_subexpr [("Foo::f", fdF)] "obj" "f" 0 "obj.f" ⟨45, 49⟩
     (.exprOther .nil "5" ⟨52, 53⟩) "obj.f = 5" ⟨45, 53⟩ ⟨36, 55, false, true⟩
     (by decide)⟩
